import Mathlib

/-!
Verification of the easyVoice segmented-TTS engine: a shallow embedding of
the subtitle reconstructor `EdgeTTS._saveSubFile`, the synthesis-session
protocol handling of `EdgeTTS.ttsPromise` and `EdgeTTS._connectWebSocket`
(src/unnamed/part_002), and the orchestrator `generateTTS` with its helpers
`generateWithLLM`, `generateWithoutLLM`, `buildSegment`, `buildSegmentList`,
`sortAudioDir`, `concatDirAudio`, `concatDirSrt`
(src/packages/backend/src/config/index.ts). Collaborators that are
referenced but whose sources are not part of the repository snapshot
(`splitText`, `generateSingleVoice`, `MapLimitController`,
`audioCacheInstance`, `taskManager.generateTaskId`, `franc`) are modelled
from the specification, marked as such in their doc comments, and enter the
model only as oracles (inputs) of the orchestrator functions. Definitions
come first, then the theorems.
-/

namespace EasyVoice

/-! Section 1. SubtitleReconstructor: `EdgeTTS._saveSubFile` (part_002,
lines 114-135). The JS loop scans the source text once with an absolute
cursor `subCharIndex`; the cursor is represented below by the remaining
suffix of the source characters: a `break` at position `sci` carries the
suffix starting at `sci` into the next iteration, and a loop that runs off
the end leaves the suffix unchanged (the JS code does not update
`subCharIndex` in that case). -/

/-- One run of the inner `for` loop of `_saveSubFile`, over the remaining
source characters. `part` is the current cue's raw fragment, `stepIndex` the
cursor into it (`cue.part[stepIndex]`, out-of-range reads yield `undefined`,
which never equals a character), `nextFirst` the first character of the next
cue's fragment (`subFile?.[index+1]?.part?.[0]`, `none` when there is no next
cue or its fragment is empty). Returns the rebuilt `fullPart` paired with
`some rest` when the loop exits through the `break` (`rest` being the source
suffix from the new cursor), or `none` when the loop exhausts the text. -/
def scanChars (part : List Char) (nextFirst : Option Char) :
    Nat → List Char → List Char × Option (List Char)
  | _, [] => ([], none)
  | stepIndex, c :: cs =>
    if part.get? stepIndex = some c then
      let r := scanChars part nextFirst (stepIndex + 1) cs
      (c :: r.1, r.2)
    else if nextFirst = some c then
      ([], some (c :: cs))
    else
      let r := scanChars part nextFirst stepIndex cs
      (c :: r.1, r.2)

/-- The outer `subFile.forEach` loop of `_saveSubFile`: rewrite each cue's
fragment in order, threading the cursor (as a suffix of the source text). -/
def saveSubAux : List (List Char) → List Char → List (List Char)
  | [], _ => []
  | part :: rest, chars =>
    let nextFirst : Option Char :=
      match rest with
      | [] => none
      | p :: _ => p.head?
    let r := scanChars part nextFirst 0 chars
    r.1 :: saveSubAux rest (match r.2 with
      | some remaining => remaining
      | none => chars)

/-- Pure content of `EdgeTTS._saveSubFile`: the list of rewritten cue texts,
in cue order (timing fields are untouched by the source function; the JSON
file write is I/O). -/
def saveSubFile (subFile : List String) (text : String) : List String :=
  (saveSubAux (subFile.map String.toList) text.toList).map List.asString

/-- Executable predicate for the amended C1: every cue except the last exits
its scan through the lookahead `break` (so the cursor advances past exactly
the characters the cue absorbed), or no source text remains at that cue. -/
def scanOk : List (List Char) → List Char → Bool
  | [], _ => true
  | [_], _ => true
  | part :: next :: rest, chars =>
    match (scanChars part next.head? 0 chars).2 with
    | some remaining => scanOk (next :: rest) remaining
    | none => chars.isEmpty

/-! Section 2. SynthesisProtocolClient: `EdgeTTS.ttsPromise` (part_002,
lines 137-208). The session is an event-driven websocket handler; it is
embedded as a transition system consuming the ordered list of observable
events (incoming frames, transport errors, closures, timer expiry) and
settling — as the JS promise does — on the first decisive event, after
which the promise cannot settle again. -/

/-- One element of a `Path:audio.metadata` frame's `Metadata` array:
`{Data: {text: {Text}, Offset, Duration}}`, offsets in 100ns ticks. -/
structure RawMetadataEvent where
  text : String
  offsetTicks : Nat
  durationTicks : Nat
deriving DecidableEq

/-- A subtitle cue (`subLine` in part_002): `stop` embeds the source field
named `end` (a Lean keyword). Times are in milliseconds. -/
structure Cue where
  part : String
  start : Nat
  stop : Nat
deriving DecidableEq

/-- Text frames as discriminated by `ttsPromise` (lines 154-177): a frame
whose payload contains `Path:turn.end`; a `Path:audio.metadata` frame
carrying its parsed `Metadata` array (`none` when `JSON.parse` throws — the
catch block ignores such frames); or any other text frame. -/
inductive TextFrame
  | turnEnd
  | metadata (events : Option (List RawMetadataEvent))
  | other
deriving DecidableEq

/-- An observable event on the synthesis websocket. A `binary` frame carries
the bytes following the `Path:audio\r\n` sub-header (lines 148-152); `error`
is a transport error; `close` carries the websocket close code; `timeout` is
the expiry of the session timer (line 142). -/
inductive WsEvent
  | binary (payload : List Nat)
  | text (frame : TextFrame)
  | error (msg : String)
  | close (code : Nat) (reason : String)
  | timeout
deriving DecidableEq

/-- How the promise settles (`pending` = no decisive event arrived). -/
inductive SessionOutcome
  | resolved
  | rejectedError (msg : String)
  | rejectedClose (code : Nat)
  | rejectedTimeout
  | pending
deriving DecidableEq

/-- Buffered session data: audio chunks written to the stream, in write
order, and parsed cues, in arrival order. -/
structure SessionState where
  audio : List (List Nat)
  cues : List Cue
deriving DecidableEq

/-- Cue construction from a metadata element (lines 168-172):
`start = Math.floor(Offset / 10000)`,
`end = Math.floor((Offset + Duration) / 10000)` — floor division of
nonnegative integers is `Nat` division. -/
def mkCue (e : RawMetadataEvent) : Cue :=
  { part := e.text
    start := e.offsetTicks / 10000
    stop := (e.offsetTicks + e.durationTicks) / 10000 }

/-- Transition system of `ttsPromise`: process events in order; binary frames
append audio (line 152), metadata frames append cues (lines 163-177), a
`turn.end` frame resolves (lines 155-162), an error rejects (lines 181-186),
a close with code other than 1000 rejects (lines 188-194), a normal close is
a no-op for the promise, the timer rejects (lines 142-145). -/
def runSession : List WsEvent → SessionState → SessionOutcome × SessionState
  | [], s => (.pending, s)
  | e :: rest, s =>
    match e with
    | .binary payload => runSession rest { s with audio := s.audio ++ [payload] }
    | .text .turnEnd => (.resolved, s)
    | .text (.metadata none) => runSession rest s
    | .text (.metadata (some events)) =>
        runSession rest { s with cues := s.cues ++ events.map mkCue }
    | .text .other => runSession rest s
    | .error msg => (.rejectedError msg, s)
    | .close code _ =>
        if code ≠ 1000 then (.rejectedClose code, s) else runSession rest s
    | .timeout => (.rejectedTimeout, s)

/-- A full `ttsPromise` run starting from an empty stream and cue list. -/
def ttsPromiseModel (events : List WsEvent) : SessionOutcome × SessionState :=
  runSession events ⟨[], []⟩

/-- Abnormal events: transport error, non-normal close, timer expiry. -/
def WsEvent.abnormal : WsEvent → Bool
  | .error _ => true
  | .close code _ => code != 1000
  | .timeout => true
  | _ => false

/-- The frame that resolves the promise. -/
def WsEvent.isTurnEnd : WsEvent → Bool
  | .text .turnEnd => true
  | _ => false

/-- Events on which the promise settles. -/
def WsEvent.decisive (e : WsEvent) : Bool := e.abnormal || e.isTurnEnd

/-- Rejection outcomes. -/
def SessionOutcome.isRejected : SessionOutcome → Bool
  | .resolved => false
  | .pending => false
  | _ => true

/-- Audio chunks carried by a list of events, in order. -/
def audioOf (events : List WsEvent) : List (List Nat) :=
  events.filterMap fun e =>
    match e with
    | .binary payload => some payload
    | _ => none

/-- Cues carried by a list of events, in arrival order. -/
def cuesOf (events : List WsEvent) : List Cue :=
  events.flatMap fun e =>
    match e with
    | .text (.metadata (some evs)) => evs.map mkCue
    | _ => []

/-- State effect of a single event (the promise-settling aspect aside). -/
def stepState (e : WsEvent) (s : SessionState) : SessionState :=
  match e with
  | .binary payload => { s with audio := s.audio ++ [payload] }
  | .text (.metadata (some events)) => { s with cues := s.cues ++ events.map mkCue }
  | _ => s

/-! Section 3. Wire framing: the `speech.config` and `ssml` frames
(`EdgeTTS._connectWebSocket` lines 78-98, `EdgeTTS.ttsPromise` lines
196-206). The template literals are reproduced byte for byte, including the
newlines and indentation the multi-line literals carry; `\x7b`/`\x7d` denote
literal braces. -/

/-- Lowercase hexadecimal digit of a value below 16 (as produced by node's
`Buffer.prototype.toString('hex')`). -/
def hexDigit (n : Nat) : Char :=
  if n < 10 then Char.ofNat (48 + n) else Char.ofNat (87 + n)

/-- Node's `Buffer.prototype.toString('hex')`: two lowercase hex digits per
byte, in byte order. `randomBytes(16).toString('hex')` is `bufToHex` of the
16 random byte values (part_002 line 196). -/
def bufToHex (bytes : List Nat) : String :=
  (bytes.flatMap fun b => [hexDigit (b / 16), hexDigit (b % 16)]).asString

/-- Recognizer for the characters `0-9a-f`. -/
def isLowerHexDigit (c : Char) : Bool :=
  ('0' ≤ c && c ≤ '9') || ('a' ≤ c && c ≤ 'f')

/-- Header block of the `speech.config` template literal (line 81), ending
with the blank line that separates headers from the JSON payload. -/
def scHeader : String :=
  "Content-Type:application/json; charset=utf-8\r\nPath:speech.config\r\n\r\n"

/-- JSON payload of the `speech.config` template up to the sentence-boundary
setting (the literal's own newlines and indentation). -/
def scB1 : String :=
  "\n          \x7b\n            \"context\": \x7b\n              \"synthesis\": \x7b\n                \"audio\": \x7b\n                  \"metadataoptions\": \x7b\n                    "

/-- The sentence-boundary setting of the `speech.config` payload. -/
def scM1 : String := "\"sentenceBoundaryEnabled\": \"false\""

/-- Separator between the two boundary settings. -/
def scB2 : String := ",\n                    "

/-- The word-boundary setting of the `speech.config` payload. -/
def scM2 : String := "\"wordBoundaryEnabled\": \"true\""

/-- Payload between the boundary settings and the output-format key. -/
def scB3 : String := "\n                  \x7d,\n                  "

/-- The output-format key up to its opening quote. -/
def scM3 : String := "\"outputFormat\": \""

/-- A double-quote character. -/
def scQ : String := "\""

/-- Closing braces and trailing whitespace of the `speech.config` template. -/
def scTail : String :=
  "\n                \x7d\n              \x7d\n            \x7d\n          \x7d\n        "

/-- The `speech.config` control frame sent in the `open` handler (lines
80-96): the template literal, byte for byte (concatenation of the pieces
above restores it exactly), with the output format interpolated. -/
def speechConfigFrame (outputFormat : String) : String :=
  scHeader ++ scB1 ++ scM1 ++ scB2 ++ scM2 ++ scB3 ++ scM3 ++ outputFormat
    ++ scQ ++ scTail

/-- The frames sent by the `open` handler: the single `wsConnect.send` call
at line 80. -/
def openFrames (outputFormat : String) : List String :=
  [speechConfigFrame outputFormat]

/-- First header name of the `ssml` template literal (line 198). -/
def ssH1 : String := "X-RequestId:"

/-- Remaining headers of the `ssml` template, ending with the blank line. -/
def ssH2 : String := "\r\nContent-Type:application/ssml+xml\r\nPath:ssml\r\n\r\n"

/-- SSML prologue up to the language attribute value. -/
def ssB1 : String :=
  "\n        <speak version=\"1.0\" xmlns=\"http://www.w3.org/2001/10/synthesis\" xmlns:mstts=\"https://www.w3.org/2001/mstts\" xml:lang=\""

/-- Close of the speak tag and indentation before the voice element. -/
def ssB2 : String := "\">\n          "

/-- Opening of the voice element up to the name attribute value. -/
def ssV1 : String := "<voice name=\""

/-- Close of the voice start tag. -/
def ssV2 : String := "\">"

/-- Indentation before the prosody element. -/
def ssB3 : String := "\n            "

/-- Opening of the prosody element up to the rate attribute value. -/
def ssP1 : String := "<prosody rate=\""

/-- Separator between the rate and pitch attribute values. -/
def ssP2 : String := "\" pitch=\""

/-- Separator between the pitch and volume attribute values. -/
def ssP3 : String := "\" volume=\""

/-- Close of the prosody start tag. -/
def ssP4 : String := "\">"

/-- Indentation before the interpolated text. -/
def ssB4 : String := "\n              "

/-- Closing prosody tag with its indentation. -/
def ssP5 : String := "\n            </prosody>"

/-- Closing voice and speak tags of the `ssml` template. -/
def ssTail : String := "\n          </voice>\n        </speak>"

/-- The SSML request frame sent at the start of a turn (lines 197-206): the
template literal, byte for byte (concatenation of the pieces above restores
it exactly), with request id, language, voice, prosody attributes and the
literal text interpolated. -/
def ssmlFrame (requestId lang voice rate pitch volume text : String) : String :=
  ssH1 ++ requestId ++ ssH2 ++ ssB1 ++ lang ++ ssB2 ++ ssV1 ++ voice ++ ssV2
    ++ ssB3 ++ ssP1 ++ rate ++ ssP2 ++ pitch ++ ssP3 ++ volume ++ ssP4
    ++ ssB4 ++ text ++ ssP5 ++ ssTail

/-! Section 4. Orchestrator: `generateTTS`, `generateWithLLM`,
`generateWithoutLLM`, `buildSegment`, `buildSegmentList`
(src/packages/backend/src/config/index.ts). Collaborators not in the
snapshot are modelled from the spec and appear only as oracle inputs:
`splitText` (TextSplitter: ordered sub-texts of the source),
`generateSingleVoice`/`runEdgeTTS` (one synthesis session per call, success
or hard failure), `audioCacheInstance` (content-addressed get/set),
`taskManager.generateTaskId` (stable content hash over
`{text, pitch, voice, rate, volume}`, idealized as the tuple itself),
`MapLimitController` (bounded scheduler: all jobs run to a terminal state,
per-job errors are downgraded to failed outcomes aligned to input order;
the interleaving is abstracted as the order in which jobs complete), and
`franc` (language detection). -/

/-- Request parameters of `generateTTS` (`Required<EdgeSchema>`). -/
structure GenParams where
  text : String
  pitch : String
  voice : String
  rate : String
  volume : String
  useLLM : Bool
deriving DecidableEq

/-- Modelled from the spec: `taskManager.generateTaskId({text, pitch, voice,
rate, volume})` is a stable content hash over exactly these five fields;
idealized as the tuple itself (collision-free content addressing). -/
structure CacheKey where
  text : String
  pitch : String
  voice : String
  rate : String
  volume : String
deriving DecidableEq

/-- The batch cache key of a request (index.ts line 57). -/
def batchKey (p : GenParams) : CacheKey :=
  { text := p.text, pitch := p.pitch, voice := p.voice, rate := p.rate,
    volume := p.volume }

/-- The per-segment cache key used inside `buildSegmentList` (line 196): the
same five fields with the segment's own text. -/
def segKey (p : GenParams) (segText : String) : CacheKey :=
  { text := segText, pitch := p.pitch, voice := p.voice, rate := p.rate,
    volume := p.volume }

/-- The source's `TTSResult` shape: audio and subtitle URLs plus the optional
`partial` flag (`none` embeds the absent/`undefined` field; the field is
renamed `isPartial` here because its source name is unavailable in this
development). -/
structure TTSResult where
  audio : String
  srt : String
  isPartial : Option Bool
deriving DecidableEq

/-- Errors `generateTTS` can propagate. `validation` is the
`validateLangAndVoice` throw; `typeError` is the `TypeError` raised when
`validateTTSResult` dereferences an `undefined` result; `incomplete` is the
`Incomplete TTS result` throw; `synthesis` is a propagated synthesis
failure; `merge` is the `No MP3 files found in input directory` throw of
`concatDirAudio`. -/
inductive TTSError
  | validation (msg : String)
  | typeError
  | incomplete (segmentId : String)
  | synthesis
  | merge
deriving DecidableEq

/-- Observable effects of one `generateTTS` run, in order: `session` marks a
synthesis session opened (`generateSingleVoice` / `runEdgeTTS`), `llmCall` a
chat-completion request, `cacheWrite` an `audioCacheInstance.setAudio` call,
`progress num den` an `updateProgress` report of the percentage
`(num / den) * 100` (see `pct`; the source's `toFixed(2)` rounding is
monotone and not observed by any claim), `taskDone` the completion of a
segment job. -/
inductive OrchEvent
  | session
  | llmCall
  | cacheWrite (key : CacheKey)
  | progress (num den : Nat)
  | taskDone (index : Nat)
deriving DecidableEq

/-- The percentage value of a progress report: `getProgress` at line 190 is
`(handledLength / length) * 100`; the final report at line 222 passes the
literal 100, embedded as `pct 1 1`. -/
def pct (num den : Nat) : ℚ := ((num : ℚ) / den) * 100

/-- Outcome of one segment job, an oracle for the collaborators not in the
snapshot: `hit` = the per-segment cache returns a prior result, `ok` = the
synthesis session succeeds, `fail` = it fails hard. -/
inductive SegOutcome
  | hit (audio : String) (srt : String)
  | ok
  | fail
deriving DecidableEq

/-- Recognizer for failed segment outcomes (`!result.success` at line 214). -/
def SegOutcome.isFail : SegOutcome → Bool
  | .fail => true
  | _ => false

/-- Recognizer for per-segment cache hits. -/
def SegOutcome.isHit : SegOutcome → Bool
  | .hit _ _ => true
  | _ => false

/-- Environment oracles of one `generateTTS` run. `batchCache` is the
batch-key cache lookup; `lang` the `franc` detection result (after the
`cmn → zh` rewrite of `getLangConfig`); `segments` the `splitText` output;
`singleFails` the outcome of the single-segment synthesis; `segOutcomes` the
per-segment outcomes aligned to segment index; `completion` the order in
which segment jobs reach their completion steps under the bounded scheduler;
`llmFails`/`llmResult` the chat-completion/`runEdgeTTS` outcome; `genId` the
time-stamped `generateId(voice, text)` value. -/
structure Oracle where
  batchCache : Option TTSResult
  lang : String
  segments : List String
  singleFails : Bool
  segOutcomes : List SegOutcome
  completion : List Nat
  llmFails : Bool
  llmResult : TTSResult
  genId : String
deriving DecidableEq

/-- `STATIC_DOMAIN` is the empty string outside development (config line
19); a result URL is `${STATIC_DOMAIN}/${p}`. -/
def staticUrl (p : String) : String := "/" ++ p

/-- JS `String.prototype.startsWith`: a prefix test, embedded over the
character lists (core's `String.startsWith` is built on byte positions and
does not reduce in the kernel). -/
def strStartsWith (s pre : String) : Bool :=
  pre.toList.isPrefixOf s.toList

/-- `validateLangAndVoice` (lines 251-255) throws iff the detected language
is not `eng` while the requested voice name starts with `en`. -/
def validateLangAndVoiceFails (lang voice : String) : Bool :=
  lang != "eng" && strStartsWith voice "en"

/-- `validateTTSResult` (lines 294-298) applied to the possibly-`undefined`
result of the generation step: accessing `.audio` on `undefined` throws a
`TypeError`; a falsy `audio` (embedded as the empty string) throws
`Incomplete TTS result`. Returns the validated result for plumbing (the
source function returns `void` and the caller keeps using `result`). -/
def validateTTSResultModel (result : Option TTSResult) (segmentId : String) :
    Except TTSError TTSResult :=
  match result with
  | none => .error .typeError
  | some r => if r.audio = "" then .error (.incomplete segmentId) else .ok r

/-- `buildSegment` (lines 146-171): exactly one synthesis session for the
whole text; on success the result carries the audio/subtitle URLs and no
`partial` field; a synthesis failure propagates (no catch in this path). -/
def buildSegmentModel (fails : Bool) (id : String) :
    Except TTSError TTSResult × List OrchEvent :=
  if fails then (.error .synthesis, [.session])
  else
    (.ok { audio := staticUrl id,
           srt := staticUrl (id.replace ".mp3" ".srt"),
           isPartial := none },
     [.session])

/-- One segment task of `buildSegmentList` (lines 193-211), with the shared
`handledLength` counter threaded through: a cache hit pushes the cached
audio and completes (no session, no progress report, no counter bump); a
miss opens one session; on success the counter is bumped, the progress
`(handledLength / length) * 100` is reported, and the per-segment cache
entry is written; a failure is caught at the controller boundary. -/
def segTask (p : GenParams) (segText : String) (idx : Nat)
    (outcome : SegOutcome) (handled total : Nat) : Nat × List OrchEvent :=
  match outcome with
  | .hit _ _ => (handled, [.taskDone idx])
  | .ok =>
      (handled + 1,
        [.session, .progress (handled + 1) total,
          .cacheWrite (segKey p segText), .taskDone idx])
  | .fail => (handled, [.session, .taskDone idx])

/-- The segment tasks as executed by the bounded scheduler, in completion
order (modelled from the spec: `MapLimitController` runs every job to a
terminal state; each task's counter bump and progress report are atomic
within the single-threaded runtime, so the trace is the concatenation of the
per-task traces in completion order). -/
def runSegTasks (p : GenParams) (segs : List String)
    (outs : List SegOutcome) : List Nat → Nat → List OrchEvent
  | [], _ => []
  | i :: rest, handled =>
    match segs.get? i, outs.get? i with
    | some segText, some outcome =>
        let r := segTask p segText i outcome handled segs.length
        r.2 ++ runSegTasks p segs outs rest r.1
    | _, _ => runSegTasks p segs outs rest handled

/-- `buildSegmentList` (lines 176-232): run all segment tasks, set `partial`
iff some job outcome failed (line 214, with the controller aligning one
outcome per job), merge audio and subtitles (`concatDirAudio` throws when
every job failed, leaving no `N_splits` file in the scratch directory),
report a final progress of 100, and return the batch URLs with the
`partial` flag always present. -/
def buildSegmentListModel (p : GenParams) (id : String) (segs : List String)
    (outs : List SegOutcome) (completion : List Nat) :
    Except TTSError TTSResult × List OrchEvent :=
  let events := runSegTasks p segs outs completion 0
  if outs.all SegOutcome.isFail then (.error .merge, events)
  else
    (.ok { audio := staticUrl id,
           srt := staticUrl (id.replace ".mp3" ".srt"),
           isPartial := some (outs.any SegOutcome.isFail) },
     events ++ [.progress 1 1])

/-- `generateWithoutLLM` (lines 127-141): at most one segment → single
synthesis; otherwise the segment list build. -/
def generateWithoutLLMModel (p : GenParams) (o : Oracle) :
    Except TTSError TTSResult × List OrchEvent :=
  if o.segments.length ≤ 1 then buildSegmentModel o.singleFails o.genId
  else buildSegmentListModel p o.genId o.segments o.segOutcomes o.completion

/-- `generateWithLLM` (lines 101-122): at most one segment → one
chat-completion request (whose shape failures are hard errors, collapsed
into `llmFails`) followed by one `runEdgeTTS` synthesis session; more than
one segment → the function only logs and falls through, returning
`undefined` (embedded as `none`) with no remote work. -/
def generateWithLLMModel (o : Oracle) :
    Except TTSError (Option TTSResult) × List OrchEvent :=
  if o.segments.length ≤ 1 then
    if o.llmFails then (.error (.validation "LLM response malformed"), [.llmCall])
    else (.ok (some o.llmResult), [.llmCall, .session])
  else (.ok none, [])

/-- `generateTTS` (lines 54-96) as a function of the request parameters and
the environment oracles, returning the outcome and the ordered trace of
observable effects: batch cache check; language/voice validation;
generation with or without the LLM; result validation; and the batch cache
write, skipped exactly when the result's `partial` field is truthy
(lines 90-94). -/
def generateTTSModel (p : GenParams) (o : Oracle) :
    Except TTSError TTSResult × List OrchEvent :=
  match o.batchCache with
  | some cached => (.ok cached, [])
  | none =>
    if validateLangAndVoiceFails o.lang p.voice then
      (.error (.validation "English model cannot process non-English text"), [])
    else
      let step : Except TTSError (Option TTSResult) × List OrchEvent :=
        if p.useLLM then generateWithLLMModel o
        else
          let r := generateWithoutLLMModel p o
          (r.1.map some, r.2)
      match step.1 with
      | .error e => (.error e, step.2)
      | .ok result =>
        match validateTTSResultModel result o.genId with
        | .error e => (.error e, step.2)
        | .ok r =>
          if r.isPartial.getD false then (.ok r, step.2)
          else (.ok r, step.2 ++ [.cacheWrite (batchKey p)])

/-- The progress values reported through `updateProgress`, in report order. -/
def progressValues (events : List OrchEvent) : List ℚ :=
  events.filterMap fun e =>
    match e with
    | .progress n d => some (pct n d)
    | _ => none

/-- Each progress report paired with the count of terminal segment jobs at
the moment of the report (`done` counts the jobs completed strictly before
the report): `((num, den), done)` for a report of `pct num den`. -/
def reportPairsAux : List OrchEvent → Nat → List ((Nat × Nat) × Nat)
  | [], _ => []
  | .progress n d :: rest, done => ((n, d), done) :: reportPairsAux rest done
  | .taskDone _ :: rest, done => reportPairsAux rest (done + 1)
  | _ :: rest, done => reportPairsAux rest done

/-- Report/terminal pairing over a full trace. -/
def reportPairs (events : List OrchEvent) : List ((Nat × Nat) × Nat) :=
  reportPairsAux events 0

/-- Whether index `i` is a well-formed segment step that synthesizes fresh
audio (the only kind that bumps `handledLength`). -/
def isOkStep (segs : List String) (outs : List SegOutcome) (i : Nat) : Bool :=
  match segs.get? i, outs.get? i with
  | some _, some .ok => true
  | _, _ => false

/-! Section 5. Merge ordering: `sortAudioDir`, `concatDirAudio`,
`concatDirSrt` (index.ts lines 303-359) over the `N_splits` file names
produced by `buildSegmentList` (line 195). -/

/-- Decimal digit character of a value below 10. -/
def dig (d : Nat) : Char := Char.ofNat (48 + d)

/-- Decimal digits of `n`, most significant first; `fuel ≥ n` suffices for
correctness and the fuel keeps the recursion structural so that evaluation
reduces in the kernel. -/
def decDigitsAux : Nat → Nat → List Char
  | 0, n => [dig (n % 10)]
  | fuel + 1, n =>
    if n < 10 then [dig n]
    else decDigitsAux fuel (n / 10) ++ [dig (n % 10)]

/-- JS template interpolation `${n}` of an integral number: its decimal
representation. -/
def decDigits (n : Nat) : List Char := decDigitsAux n n

/-- JS `Number()` on the decimal prefixes cut from the `N_splits` names
(only ever applied to digit strings in this development). -/
def decVal (cs : List Char) : Nat :=
  cs.foldl (fun a c => a * 10 + (c.toNat - 48)) 0

/-- Characters after the last `/`: node `path.parse`'s base name. -/
def afterLastSlash (cs : List Char) : List Char :=
  (cs.reverse.takeWhile (fun c => c != '/')).reverse

/-- Node `path.extname` on a base name: the substring from the last dot
(empty when there is no dot; every name sorted here carries one). -/
def extOf (base : List Char) : List Char :=
  if '.' ∈ base then
    '.' :: (base.reverse.takeWhile (fun c => c != '.')).reverse
  else []

/-- Node `path.parse(...).name` on a base name: the part before the last
dot. -/
def nameOf (base : List Char) : List Char :=
  if '.' ∈ base then
    ((base.reverse.dropWhile (fun c => c != '.')).drop 1).reverse
  else base

/-- `path.extname(file).toLowerCase()` (line 355). -/
def extname (s : String) : String :=
  ((extOf (afterLastSlash s.toList)).map Char.toLower).asString

/-- `Number(path.parse(a).name.split('_')[0])` (line 357). -/
def numPrefix (s : String) : Nat :=
  decVal ((nameOf (afterLastSlash s.toList)).takeWhile (fun c => c != '_'))

/-- `sortAudioDir` (lines 353-359): keep the entries with the requested
extension and sort them ascending by numeric prefix. The JS stable
`Array#sort` under the comparator `Number(prefix a) - Number(prefix b)` is
embedded as the stable insertion sort under `numPrefix a ≤ numPrefix b`,
extensionally equal to any stable sort for this total comparator. -/
def sortAudioDir (fileList : List String) (ext : String) : List String :=
  List.insertionSort (fun a b => numPrefix a ≤ numPrefix b)
    (fileList.filter (fun f => extname f == ext))

/-- The per-segment output file name `${index + 1}_splits.mp3` (line 195). -/
def segFileName (i : Nat) : String :=
  (decDigits (i + 1)).asString ++ "_splits.mp3"

/-- The `fileList` accumulated by `buildSegmentList`, in completion order: a
cache hit pushes the cached audio path (line 200), a fresh success pushes
its own `N_splits` output path (line 205), a failed segment pushes
nothing. -/
def fileListOf (segs : List String) (outs : List SegOutcome)
    (completion : List Nat) : List String :=
  completion.filterMap fun i =>
    match segs.get? i, outs.get? i with
    | some _, some (.hit audio _) => some audio
    | some _, some .ok => some (segFileName i)
    | _, _ => none

/-! Theorems: the claims C1-C10, their supporting lemmas, witnesses and
counterexamples, in claim order following the definitions above. -/

/-- Every character examined by the inner loop is either appended to the
rebuilt fragment or left in the returned suffix: the loop never drops or
duplicates characters within one cue. -/
theorem scanChars_append (part : List Char) (nextFirst : Option Char) :
    ∀ (chars : List Char) (stepIndex : Nat),
      (scanChars part nextFirst stepIndex chars).1
        ++ ((scanChars part nextFirst stepIndex chars).2.getD []) = chars := by
  intro chars
  induction chars with
  | nil => intro stepIndex; rfl
  | cons c cs ih =>
    intro stepIndex
    simp only [scanChars]
    split
    · simpa using ih (stepIndex + 1)
    · split
      · simp
      · simpa using ih stepIndex

/-- With no lookahead character the inner loop can never `break`: it absorbs
the whole remaining text (this is what makes the final cue absorb everything). -/
theorem scanChars_none (part : List Char) :
    ∀ (chars : List Char) (stepIndex : Nat),
      scanChars part none stepIndex chars = (chars, none) := by
  intro chars
  induction chars with
  | nil => intro stepIndex; rfl
  | cons c cs ih =>
    intro stepIndex
    simp only [scanChars]
    split
    · simp [ih (stepIndex + 1)]
    · split
      · simp_all
      · simp [ih stepIndex]

/-- Unfolding equation for `saveSubAux` on two or more cues. -/
theorem saveSubAux_cons (p q : List Char) (rest : List (List Char))
    (chars : List Char) :
    saveSubAux (p :: q :: rest) chars =
      (scanChars p q.head? 0 chars).1 ::
        saveSubAux (q :: rest)
          (match (scanChars p q.head? 0 chars).2 with
            | some remaining => remaining
            | none => chars) := rfl

/-- The final cue always absorbs the whole remaining text. -/
theorem saveSubAux_single (p : List Char) (chars : List Char) :
    saveSubAux [p] chars = [chars] := by
  simp [saveSubAux, scanChars_none]

/-- On an exhausted source text every cue is rewritten to the empty fragment. -/
theorem saveSubAux_nil (parts : List (List Char)) :
    (saveSubAux parts []).flatten = [] := by
  induction parts with
  | nil => rfl
  | cons p rest ih =>
    cases rest with
    | nil => simp [saveSubAux_single]
    | cons q rest' =>
      rw [saveSubAux_cons]
      have h0 : scanChars p q.head? 0 [] = ([], none) := rfl
      rw [h0]
      simpa using ih

/-- Character preservation holds exactly when each non-final cue scan exits
through the lookahead `break` (`scanOk`): then the rewritten cue texts
concatenate to the source text. -/
theorem flatten_saveSubAux (parts : List (List Char)) (chars : List Char)
    (hne : parts ≠ []) (hok : scanOk parts chars = true) :
    (saveSubAux parts chars).flatten = chars := by
  induction parts generalizing chars with
  | nil => exact absurd rfl hne
  | cons p rest ih =>
    cases rest with
    | nil =>
      simp only [saveSubAux, scanChars_none]
      simp
    | cons q rest' =>
      rw [saveSubAux_cons]
      simp only [scanOk] at hok
      rcases hr : (scanChars p q.head? 0 chars).2 with _ | remaining
      · rw [hr] at hok
        have hchars : chars = [] := by simpa using hok
        subst hchars
        have h0 : scanChars p q.head? 0 [] = ([], none) := rfl
        rw [h0]
        simpa using saveSubAux_nil (q :: rest')
      · rw [hr] at hok
        have happ := scanChars_append p q.head? chars 0
        rw [hr] at happ
        simp only [Option.getD_some] at happ
        have hrec := ih remaining (by simp) hok
        show (scanChars p q.head? 0 chars).1 ++
          (saveSubAux (q :: rest') remaining).flatten = chars
        rw [hrec, happ]

/-- C1, as stated, is false: with source text `"ab"` and raw fragments
`["a", "a"]` the first cue's scan runs off the end of the text without the
cursor being updated, so the second cue re-reads the whole text; the outputs
are `["ab", "ab"]` and their concatenation `"abab"` is not the source text. -/
theorem c1_counterexample :
    String.join (saveSubFile ["a", "a"] "ab") ≠ "ab" := by decide

/-- C1 (amended): for every source text and fragment list, concatenating the
output cue texts of `_saveSubFile` reproduces the source text exactly,
provided each non-final cue's forward scan stops at the lookahead `break`
(first character of the next fragment found) rather than running off the end
of the text; when some non-final scan exhausts the text (e.g. on an empty or
never-matching next fragment), the unchanged cursor makes later cues re-read
source characters and the concatenation strictly contains duplicates. -/
theorem c1_saveSubFile_concat_eq (subFile : List String) (text : String)
    (hne : subFile ≠ [])
    (hok : scanOk (subFile.map String.toList) text.toList = true) :
    String.join (saveSubFile subFile text) = text := by
  unfold saveSubFile
  have h := flatten_saveSubAux (subFile.map String.toList) text.toList
    (by simpa using hne) hok
  apply String.ext
  rw [String.data_join, List.map_map]
  have hmap : (String.data ∘ List.asString) = id := by
    funext x
    exact List.toList_asString x
  rw [hmap, List.map_id, h]
  rfl

/-- Witness for the amended C1 at a concrete input: cues `["ab", "cd"]`
against source `"ab,cd"` (the comma is absorbed by the first cue, the scan
then breaks on `'c'`). -/
theorem c1_witness :
    String.join (saveSubFile ["ab", "cd"] "ab,cd") = "ab,cd" :=
  c1_saveSubFile_concat_eq ["ab", "cd"] "ab,cd" (by decide) (by decide)

/-- A non-decisive event neither settles the promise nor does anything but
accumulate state. -/
theorem runSession_step (e : WsEvent) (rest : List WsEvent) (s : SessionState)
    (h : e.decisive = false) :
    runSession (e :: rest) s = runSession rest (stepState e s) := by
  cases e with
  | binary payload => rfl
  | text frame =>
    cases frame with
    | turnEnd => simp [WsEvent.decisive, WsEvent.isTurnEnd] at h
    | metadata events => cases events <;> rfl
    | other => rfl
  | error msg => simp [WsEvent.decisive, WsEvent.abnormal] at h
  | close code reason =>
    have hcode : code = 1000 := by
      simpa [WsEvent.decisive, WsEvent.abnormal, WsEvent.isTurnEnd] using h
    subst hcode
    rfl
  | timeout => simp [WsEvent.decisive, WsEvent.abnormal] at h

/-- Effect of one event on the accumulated state, in terms of `audioOf` and
`cuesOf`. -/
theorem stepState_eq (e : WsEvent) (s : SessionState) :
    stepState e s = ⟨s.audio ++ audioOf [e], s.cues ++ cuesOf [e]⟩ := by
  cases e with
  | binary payload => simp [stepState, audioOf, cuesOf]
  | text frame =>
    cases frame with
    | turnEnd => simp [stepState, audioOf, cuesOf]
    | metadata events =>
      cases events <;> simp [stepState, audioOf, cuesOf]
    | other => simp [stepState, audioOf, cuesOf]
  | error msg => simp [stepState, audioOf, cuesOf]
  | close code reason => simp [stepState, audioOf, cuesOf]
  | timeout => simp [stepState, audioOf, cuesOf]

/-- An abnormal event settles the promise with a rejection. -/
theorem runSession_abnormal (e : WsEvent) (rest : List WsEvent)
    (s : SessionState) (h : e.abnormal = true) :
    (runSession (e :: rest) s).1.isRejected = true ∧
      (runSession (e :: rest) s).2 = s := by
  cases e with
  | binary payload => simp [WsEvent.abnormal] at h
  | text frame => cases frame <;> simp_all [WsEvent.abnormal]
  | error msg => exact ⟨rfl, rfl⟩
  | close code reason =>
    have hcode : code ≠ 1000 := by simpa [WsEvent.abnormal] using h
    simp [runSession, hcode, SessionOutcome.isRejected]
  | timeout => exact ⟨rfl, rfl⟩

/-- If every event of `pre` is non-decisive, the run over `pre ++ tail` first
accumulates all of `pre`'s audio and cues and then continues with `tail`. -/
theorem runSession_cleanPrefix (pre : List WsEvent) :
    ∀ (tail : List WsEvent) (s : SessionState),
      (∀ e ∈ pre, e.decisive = false) →
      runSession (pre ++ tail) s =
        runSession tail ⟨s.audio ++ audioOf pre, s.cues ++ cuesOf pre⟩ := by
  induction pre with
  | nil =>
    intro tail s _
    simp [audioOf, cuesOf]
  | cons e pre' ih =>
    intro tail s hclean
    have he : e.decisive = false := hclean e (by simp)
    have hpre' : ∀ x ∈ pre', x.decisive = false := fun x hx =>
      hclean x (by simp [hx])
    rw [List.cons_append, runSession_step e (pre' ++ tail) s he,
      ih tail (stepState e s) hpre', stepState_eq]
    have haudio : (s.audio ++ audioOf [e]) ++ audioOf pre' =
        s.audio ++ audioOf (e :: pre') := by
      simp [audioOf, List.filterMap_cons]
      cases e <;> simp
    have hcues : (s.cues ++ cuesOf [e]) ++ cuesOf pre' =
        s.cues ++ cuesOf (e :: pre') := by
      simp [cuesOf]
    rw [haudio, hcues]

/-- A decisive event is a `turn.end` frame or an abnormal event. -/
theorem decisive_cases (e : WsEvent) (h : e.decisive = true) :
    e = WsEvent.text TextFrame.turnEnd ∨ e.abnormal = true := by
  rcases Bool.or_eq_true_iff.mp h with hab | hte
  · exact Or.inr hab
  · left
    cases e with
    | text frame => cases frame <;> simp_all [WsEvent.isTurnEnd]
    | binary payload => simp [WsEvent.isTurnEnd] at hte
    | error msg => simp [WsEvent.isTurnEnd] at hte
    | close code reason => simp [WsEvent.isTurnEnd] at hte
    | timeout => simp [WsEvent.isTurnEnd] at hte

/-- If a run resolves, the event list decomposes as a decisive-free prefix
followed by a `turn.end` frame. -/
theorem runSession_resolved_split (events : List WsEvent) :
    ∀ s, (runSession events s).1 = .resolved →
      ∃ pre post, events = pre ++ WsEvent.text TextFrame.turnEnd :: post ∧
        ∀ e ∈ pre, e.decisive = false := by
  induction events with
  | nil => intro s h; simp [runSession] at h
  | cons e rest ih =>
    intro s h
    by_cases hd : e.decisive = true
    · rcases decisive_cases e hd with hte | hab
      · exact ⟨[], rest, by rw [hte]; rfl, by simp⟩
      · have := (runSession_abnormal e rest s hab).1
        rw [h] at this
        simp [SessionOutcome.isRejected] at this
    · rw [runSession_step e rest s (by simpa using hd)] at h
      obtain ⟨pre, post, hsplit, hclean⟩ := ih (stepState e s) h
      exact ⟨e :: pre, post, by rw [hsplit]; rfl,
        by
          intro x hx
          rcases List.mem_cons.mp hx with hx | hx
          · subst hx; simpa using hd
          · exact hclean x hx⟩

/-- If a run rejects, the event list decomposes as a decisive-free prefix
followed by an abnormal event. -/
theorem runSession_rejected_split (events : List WsEvent) :
    ∀ s, (runSession events s).1.isRejected = true →
      ∃ pre e post, events = pre ++ e :: post ∧ e.abnormal = true ∧
        ∀ x ∈ pre, x.decisive = false := by
  induction events with
  | nil => intro s h; simp [runSession, SessionOutcome.isRejected] at h
  | cons e rest ih =>
    intro s h
    by_cases hd : e.decisive = true
    · rcases decisive_cases e hd with hte | hab
      · subst hte
        simp [runSession, SessionOutcome.isRejected] at h
      · exact ⟨[], e, rest, rfl, hab, by simp⟩
    · rw [runSession_step e rest s (by simpa using hd)] at h
      obtain ⟨pre, e', post, hsplit, hab, hclean⟩ := ih (stepState e s) h
      exact ⟨e :: pre, e', post, by rw [hsplit]; rfl, hab,
        by
          intro x hx
          rcases List.mem_cons.mp hx with hx | hx
          · subst hx; simpa using hd
          · exact hclean x hx⟩

/-- C3: a synthesis turn resolves exactly when a `Path:turn.end` text frame
arrives with no abnormal event (transport error, timer expiry, close with a
code other than 1000) before it; on resolution the written audio is exactly
the binary payload sequence received before `turn.end` and the retained cues
are exactly the parsed metadata cues received before it; and the turn rejects
exactly when an abnormal event arrives with nothing decisive before it. (The
decisive-free prefix in each decomposition is the prefix up to the first
settling event; a normal close before `turn.end` settles nothing.) -/
theorem c3_session_settlement (events : List WsEvent) :
    ((ttsPromiseModel events).1 = .resolved ↔
      ∃ pre post, events = pre ++ WsEvent.text TextFrame.turnEnd :: post ∧
        ∀ e ∈ pre, e.decisive = false) ∧
    (∀ pre post, events = pre ++ WsEvent.text TextFrame.turnEnd :: post →
      (∀ e ∈ pre, e.decisive = false) →
      (ttsPromiseModel events).2 = ⟨audioOf pre, cuesOf pre⟩) ∧
    ((ttsPromiseModel events).1.isRejected = true ↔
      ∃ pre e post, events = pre ++ e :: post ∧ e.abnormal = true ∧
        ∀ x ∈ pre, x.decisive = false) := by
  refine ⟨⟨fun h => runSession_resolved_split events _ h, ?_⟩, ?_, ?_, ?_⟩
  · rintro ⟨pre, post, hsplit, hclean⟩
    unfold ttsPromiseModel
    rw [hsplit, runSession_cleanPrefix pre _ _ hclean]
    rfl
  · intro pre post hsplit hclean
    unfold ttsPromiseModel
    rw [hsplit, runSession_cleanPrefix pre _ _ hclean]
    simp [runSession]
  · exact fun h => runSession_rejected_split events _ h
  · rintro ⟨pre, e, post, hsplit, hab, hclean⟩
    unfold ttsPromiseModel
    rw [hsplit, runSession_cleanPrefix pre _ _ hclean]
    exact (runSession_abnormal e post _ hab).1

/-- Witness for C3 at a concrete session: one audio chunk and one metadata
frame arrive, then `turn.end`, then a late abnormal close; the session ends
with exactly that audio chunk written and that cue retained. -/
theorem c3_witness :
    (ttsPromiseModel [WsEvent.binary [7, 8],
        WsEvent.text (TextFrame.metadata (some [⟨"hi", 20000, 15000⟩])),
        WsEvent.text TextFrame.turnEnd, WsEvent.close 1006 "late"]).2 =
      ⟨[[7, 8]], [⟨"hi", 2, 3⟩]⟩ :=
  (c3_session_settlement _).2.1
    [WsEvent.binary [7, 8],
      WsEvent.text (TextFrame.metadata (some [⟨"hi", 20000, 15000⟩]))]
    [WsEvent.close 1006 "late"] rfl (by decide)

/-- Running a sequence of metadata frames followed by `turn.end` appends all
their cues in arrival order and resolves. -/
theorem runSession_metadata_frames (frames : List (List RawMetadataEvent)) :
    ∀ s, runSession
        ((frames.map fun evs => WsEvent.text (TextFrame.metadata (some evs)))
          ++ [WsEvent.text TextFrame.turnEnd]) s =
      (.resolved, { s with cues := s.cues ++ frames.flatten.map mkCue }) := by
  induction frames with
  | nil => intro s; simp [runSession]
  | cons f fs ih =>
    intro s
    simp only [List.map_cons, List.cons_append]
    show runSession _ { s with cues := s.cues ++ f.map mkCue } = _
    rw [ih]
    simp

/-- C7: every cue built from a server metadata event has
`start = offsetTicks / 10000` and `end = (offsetTicks + durationTicks) / 10000`
(floor division, 100ns ticks to milliseconds), and cues are appended in the
order the metadata events arrive: a turn delivering the metadata arrays
`frames` retains exactly their concatenation, in order, under that
conversion. -/
theorem c7_cue_conversion (frames : List (List RawMetadataEvent)) :
    (ttsPromiseModel
        ((frames.map fun evs => WsEvent.text (TextFrame.metadata (some evs)))
          ++ [WsEvent.text TextFrame.turnEnd])).2.cues =
      frames.flatten.map (fun e =>
        { part := e.text
          start := e.offsetTicks / 10000
          stop := (e.offsetTicks + e.durationTicks) / 10000 : Cue }) := by
  unfold ttsPromiseModel
  rw [runSession_metadata_frames]
  rfl

/-- Hex encoding doubles the length: one byte becomes two digits. -/
theorem bufToHex_length (bytes : List Nat) :
    (bufToHex bytes).length = 2 * bytes.length := by
  unfold bufToHex
  rw [List.length_asString]
  induction bytes with
  | nil => rfl
  | cons b bs ih =>
    rw [List.flatMap_cons, List.length_append, ih, List.length_cons]
    simp
    omega

/-- Digits below 16 encode to the lowercase hex alphabet. -/
theorem hexDigit_isLowerHexDigit (n : Nat) (h : n < 16) :
    isLowerHexDigit (hexDigit n) = true := by
  interval_cases n <;> decide

/-- Every character of the hex encoding of genuine bytes is in `0-9a-f`. -/
theorem bufToHex_chars (bytes : List Nat) (h : ∀ b ∈ bytes, b < 256) :
    ∀ c ∈ (bufToHex bytes).toList, isLowerHexDigit c = true := by
  unfold bufToHex
  rw [List.toList_asString]
  induction bytes with
  | nil => simp
  | cons b bs ih =>
    have hb : b < 256 := h b (by simp)
    have hrest : ∀ x ∈ bs, x < 256 := fun x hx => h x (by simp [hx])
    intro c hc
    rw [List.flatMap_cons, List.mem_append] at hc
    rcases hc with hc | hc
    · rcases List.mem_cons.mp hc with hc | hc
      · subst hc
        exact hexDigit_isLowerHexDigit _ (by omega)
      · rcases List.mem_cons.mp hc with hc | hc
        · subst hc
          exact hexDigit_isLowerHexDigit _ (by omega)
        · simp at hc
    · exact ih hrest c hc

/-- C8: on open the client sends exactly one `speech.config` control frame —
its headers `Content-Type:application/json; charset=utf-8` and
`Path:speech.config` terminated by a blank line, its JSON body enabling
word-boundary and disabling sentence-boundary metadata and carrying the
output format; the turn's `ssml` frame carries an `X-RequestId` of 32
lowercase-hex characters (16 random bytes hex-encoded), the
`Content-Type:application/ssml+xml` and `Path:ssml` headers, a blank line,
and SSML interpolating the voice name, the `rate`/`pitch`/`volume` prosody
attributes, and the literal text inside the prosody element. -/
theorem c8_wire_frames (outputFormat lang voice rate pitch volume text : String)
    (bytes : List Nat) (hlen : bytes.length = 16)
    (hbyte : ∀ b ∈ bytes, b < 256) :
    (openFrames outputFormat).length = 1 ∧
    (∃ body, speechConfigFrame outputFormat =
      "Content-Type:application/json; charset=utf-8\r\nPath:speech.config\r\n\r\n"
        ++ body) ∧
    (∃ pre post, speechConfigFrame outputFormat =
      pre ++ "\"sentenceBoundaryEnabled\": \"false\"" ++ post) ∧
    (∃ pre post, speechConfigFrame outputFormat =
      pre ++ "\"wordBoundaryEnabled\": \"true\"" ++ post) ∧
    (∃ pre post, speechConfigFrame outputFormat =
      pre ++ ("\"outputFormat\": \"" ++ outputFormat ++ "\"") ++ post) ∧
    ((bufToHex bytes).length = 32 ∧
      ∀ c ∈ (bufToHex bytes).toList, isLowerHexDigit c = true) ∧
    (∃ body, ssmlFrame (bufToHex bytes) lang voice rate pitch volume text =
      "X-RequestId:" ++ bufToHex bytes
        ++ "\r\nContent-Type:application/ssml+xml\r\nPath:ssml\r\n\r\n"
        ++ body) ∧
    (∃ pre post, ssmlFrame (bufToHex bytes) lang voice rate pitch volume text =
      pre ++ ("<voice name=\"" ++ voice ++ "\">") ++ post) ∧
    (∃ pre post, ssmlFrame (bufToHex bytes) lang voice rate pitch volume text =
      pre ++ ("<prosody rate=\"" ++ rate ++ "\" pitch=\"" ++ pitch
        ++ "\" volume=\"" ++ volume ++ "\">"
        ++ "\n              " ++ text ++ "\n            </prosody>") ++ post) := by
  refine ⟨rfl,
    ⟨scB1 ++ scM1 ++ scB2 ++ scM2 ++ scB3 ++ scM3 ++ outputFormat ++ scQ
      ++ scTail, ?_⟩,
    ⟨scHeader ++ scB1,
      scB2 ++ scM2 ++ scB3 ++ scM3 ++ outputFormat ++ scQ ++ scTail, ?_⟩,
    ⟨scHeader ++ scB1 ++ scM1 ++ scB2,
      scB3 ++ scM3 ++ outputFormat ++ scQ ++ scTail, ?_⟩,
    ⟨scHeader ++ scB1 ++ scM1 ++ scB2 ++ scM2 ++ scB3, scTail, ?_⟩,
    ⟨(bufToHex_length bytes).trans (by rw [hlen]), bufToHex_chars bytes hbyte⟩,
    ⟨ssB1 ++ lang ++ ssB2 ++ ssV1 ++ voice ++ ssV2 ++ ssB3 ++ ssP1 ++ rate
      ++ ssP2 ++ pitch ++ ssP3 ++ volume ++ ssP4 ++ ssB4 ++ text ++ ssP5
      ++ ssTail, ?_⟩,
    ⟨ssH1 ++ bufToHex bytes ++ ssH2 ++ ssB1 ++ lang ++ ssB2,
      ssB3 ++ ssP1 ++ rate ++ ssP2 ++ pitch ++ ssP3 ++ volume ++ ssP4 ++ ssB4
        ++ text ++ ssP5 ++ ssTail, ?_⟩,
    ⟨ssH1 ++ bufToHex bytes ++ ssH2 ++ ssB1 ++ lang ++ ssB2 ++ ssV1 ++ voice
      ++ ssV2 ++ ssB3, ssTail, ?_⟩⟩
  all_goals
    simp only [speechConfigFrame, ssmlFrame, scHeader, scB1, scM1, scB2, scM2,
      scB3, scM3, scQ, scTail, ssH1, ssH2, ssB1, ssB2, ssV1, ssV2, ssB3, ssP1,
      ssP2, ssP3, ssP4, ssB4, ssP5, ssTail, String.append_assoc]

/-- Witness for C8 at concrete parameters: sixteen `0xAB` bytes hex-encode
to a 32-character lowercase-hex request id. -/
theorem c8_witness :
    (bufToHex (List.replicate 16 171)).length = 32 ∧
      ∀ c ∈ (bufToHex (List.replicate 16 171)).toList,
        isLowerHexDigit c = true :=
  (c8_wire_frames "audio-24khz-48kbitrate-mono-mp3" "zh-CN"
    "zh-CN-XiaoyiNeural" "default" "default" "default" "hello"
    (List.replicate 16 171) (by decide) (by decide)).2.2.2.2.2.1

/-- Result URLs are never the empty string, so `validateTTSResult` passes on
every result built by `buildSegment`/`buildSegmentList`. -/
theorem staticUrl_ne_empty (p : String) : staticUrl p ≠ "" := by
  intro h
  have h2 : ("/" ++ p).length = ("" : String).length := congrArg String.length h
  rw [String.length_append] at h2
  have h3 : 1 + p.length = 0 := h2
  omega

/-- C5: on a batch-cache miss, a request whose detected language is not
`eng` but whose voice name starts with `en` is rejected by
`validateLangAndVoice` with `English model cannot process non-English text`
before the generation step, with an empty effect trace — zero synthesis
sessions and zero LLM calls. -/
theorem c5_validation_fast_fail (p : GenParams) (o : Oracle)
    (hmiss : o.batchCache = none) (hlang : o.lang ≠ "eng")
    (hvoice : strStartsWith p.voice "en" = true) :
    generateTTSModel p o =
      (.error (.validation "English model cannot process non-English text"),
        []) := by
  unfold generateTTSModel
  rw [hmiss]
  have hv : validateLangAndVoiceFails o.lang p.voice = true := by
    simp [validateLangAndVoiceFails, hvoice, bne_iff_ne, hlang]
  simp [hv]

/-- Witness for C5: a concrete non-English request against an `en-US` voice
fails validation with no effects. -/
theorem c5_witness :
    generateTTSModel
      { text := "你好世界", pitch := "default", voice := "en-US-AriaNeural",
        rate := "default", volume := "default", useLLM := false }
      { batchCache := none, lang := "zh", segments := ["你好世界"],
        singleFails := false, segOutcomes := [], completion := [],
        llmFails := false,
        llmResult := { audio := "", srt := "", isPartial := none },
        genId := "id.mp3" } =
      (.error (.validation "English model cannot process non-English text"),
        []) :=
  c5_validation_fast_fail _ _ rfl (by decide) (by decide)

/-- C10: when the text splits into more than one segment and `useLLM` is
set, `generateWithLLM` only logs on its multi-segment branch and returns
`undefined`; `validateTTSResult` then dereferences that `undefined` value,
so the `generateTTS` call always throws (a `TypeError`) and never produces
an artifact — with no remote work at all. -/
theorem c10_llm_multi_segment_throws (p : GenParams) (o : Oracle)
    (hmiss : o.batchCache = none)
    (hval : validateLangAndVoiceFails o.lang p.voice = false)
    (hllm : p.useLLM = true) (hmulti : 1 < o.segments.length) :
    generateTTSModel p o = (.error .typeError, []) := by
  unfold generateTTSModel
  rw [hmiss]
  simp only [hval, Bool.false_eq_true, if_false, hllm, if_true]
  unfold generateWithLLMModel
  rw [if_neg (by omega)]
  rfl

/-- Witness for C10: a concrete two-segment request with `useLLM` throws the
dereference error with no effects. -/
theorem c10_witness :
    generateTTSModel
      { text := "first second", pitch := "default", voice := "zh-CN-XiaoyiNeural",
        rate := "default", volume := "default", useLLM := true }
      { batchCache := none, lang := "eng", segments := ["first", "second"],
        singleFails := false, segOutcomes := [.ok, .ok], completion := [0, 1],
        llmFails := false,
        llmResult := { audio := "/x.mp3", srt := "/x.srt", isPartial := none },
        genId := "id.mp3" } =
      (.error .typeError, []) :=
  c10_llm_multi_segment_throws _ _ rfl (by decide) rfl (by decide)

/-- C6: for a batch whose text splits into at most one segment, the single
segment's synthesis failure is the failure of the whole `generateTTS` call
(the error propagates uncaught out of `buildSegment`), and no single-segment
run can produce a result with a truthy `partial` flag: the single path
builds its result without that field. -/
theorem c6_single_segment_failure (p : GenParams) (o : Oracle)
    (hmiss : o.batchCache = none)
    (hval : validateLangAndVoiceFails o.lang p.voice = false)
    (hllm : p.useLLM = false) (hsingle : o.segments.length ≤ 1) :
    (o.singleFails = true →
      generateTTSModel p o = (.error .synthesis, [.session])) ∧
    ∀ r, (generateTTSModel p o).1 = .ok r → r.isPartial ≠ some true := by
  unfold generateTTSModel
  rw [hmiss]
  simp only [hval, Bool.false_eq_true, if_false, hllm]
  unfold generateWithoutLLMModel
  rw [if_pos hsingle]
  unfold buildSegmentModel
  cases hf : o.singleFails with
  | true => exact ⟨fun _ => rfl, by intro r h; simp [Except.map] at h⟩
  | false =>
    constructor
    · intro hcontra
      exact absurd hcontra (by simp)
    · intro r h
      have hne := staticUrl_ne_empty o.genId
      simp only [Bool.false_eq_true, if_false, Except.map,
        validateTTSResultModel, if_neg hne] at h
      simp at h
      rw [← h]
      simp

/-- Witness for C6: a concrete single-segment request whose synthesis fails
makes the whole call fail after its one session. -/
theorem c6_witness :
    generateTTSModel
      { text := "hello", pitch := "default", voice := "zh-CN-XiaoyiNeural",
        rate := "default", volume := "default", useLLM := false }
      { batchCache := none, lang := "eng", segments := ["hello"],
        singleFails := true, segOutcomes := [], completion := [],
        llmFails := false,
        llmResult := { audio := "", srt := "", isPartial := none },
        genId := "id.mp3" } =
      (.error .synthesis, [.session]) :=
  (c6_single_segment_failure _ _ rfl (by decide) rfl (by decide)).1 rfl

/-- Every cache write issued inside the segment tasks uses a per-segment
key, whose text field is one of the segment texts. -/
theorem runSegTasks_cacheWrite_key (p : GenParams) (segs : List String)
    (outs : List SegOutcome) :
    ∀ (completion : List Nat) (handled : Nat) (key : CacheKey),
      OrchEvent.cacheWrite key ∈ runSegTasks p segs outs completion handled →
      ∃ s ∈ segs, key = segKey p s := by
  intro completion
  induction completion with
  | nil =>
    intro handled key h
    simp [runSegTasks] at h
  | cons i rest ih =>
    intro handled key h
    unfold runSegTasks at h
    rcases hseg : segs.get? i with _ | segText
    · rw [hseg] at h
      exact ih _ _ h
    · rcases hout : outs.get? i with _ | outcome
      · rw [hseg, hout] at h
        exact ih _ _ h
      · rw [hseg, hout] at h
        have hmem : segText ∈ segs := List.get?_mem hseg
        cases outcome with
        | hit a s =>
          simp only [segTask, List.cons_append, List.nil_append,
            List.mem_cons] at h
          rcases h with h | h
          · exact absurd h (by simp)
          · exact ih _ _ h
        | ok =>
          simp only [segTask, List.cons_append, List.nil_append,
            List.mem_cons] at h
          rcases h with h | h | h | h | h
          · exact absurd h (by simp)
          · exact absurd h (by simp)
          · exact ⟨segText, hmem, by injection h⟩
          · exact absurd h (by simp)
          · exact ih _ _ h
        | fail =>
          simp only [segTask, List.cons_append, List.nil_append,
            List.mem_cons] at h
          rcases h with h | h | h
          · exact absurd h (by simp)
          · exact absurd h (by simp)
          · exact ih _ _ h

/-- C2: a cache entry for the batch key is written only for a non-partial
result; in particular, when at least one segment job of a multi-segment
batch fails (so `partial = true`), no cache entry for the batch key is ever
written — the segment tasks write only per-segment keys (over the proper
sub-texts produced by the splitter) and the final batch write is skipped by
the `result.partial` guard. -/
theorem c2_partial_never_cached (p : GenParams) (o : Oracle)
    (hproper : ∀ s ∈ o.segments, s ≠ p.text)
    (hllm : p.useLLM = false) (hmulti : 1 < o.segments.length)
    (hfail : SegOutcome.fail ∈ o.segOutcomes) :
    OrchEvent.cacheWrite (batchKey p) ∉ (generateTTSModel p o).2 := by
  have hkey : ∀ key, OrchEvent.cacheWrite key ∈
      runSegTasks p o.segments o.segOutcomes o.completion 0 →
      key ≠ batchKey p := by
    intro key hk
    obtain ⟨s, hs, rfl⟩ := runSegTasks_cacheWrite_key p o.segments
      o.segOutcomes o.completion 0 key hk
    intro heq
    have : s = p.text := congrArg CacheKey.text heq
    exact hproper s hs this
  unfold generateTTSModel
  rcases o.batchCache with _ | cached
  · by_cases hval : validateLangAndVoiceFails o.lang p.voice = true
    · simp [hval]
    · simp only [Bool.not_eq_true] at hval
      simp only [hval, Bool.false_eq_true, if_false, hllm]
      unfold generateWithoutLLMModel
      rw [if_neg (by omega)]
      unfold buildSegmentListModel
      have hany : o.segOutcomes.any SegOutcome.isFail = true :=
        List.any_eq_true.mpr ⟨.fail, hfail, rfl⟩
      by_cases hall : o.segOutcomes.all SegOutcome.isFail = true
      · simp only [hall, if_true]
        intro hmem
        exact hkey _ hmem rfl
      · simp only [Bool.not_eq_true] at hall
        simp only [hall, Bool.false_eq_true, if_false]
        have hne := staticUrl_ne_empty o.genId
        simp only [Except.map, validateTTSResultModel, if_neg hne]
        rw [if_pos (by simp [hany])]
        intro hmem
        rcases List.mem_append.mp hmem with hmem | hmem
        · exact hkey _ hmem rfl
        · simp at hmem
  · simp

/-- Witness for C2: a concrete two-segment batch with one failed segment
never writes the batch key. -/
theorem c2_witness :
    OrchEvent.cacheWrite
        (batchKey
          { text := "alpha beta", pitch := "default",
            voice := "zh-CN-XiaoyiNeural", rate := "default",
            volume := "default", useLLM := false }) ∉
      (generateTTSModel
        { text := "alpha beta", pitch := "default",
          voice := "zh-CN-XiaoyiNeural", rate := "default",
          volume := "default", useLLM := false }
        { batchCache := none, lang := "eng", segments := ["alpha", "beta"],
          singleFails := false, segOutcomes := [.ok, .fail],
          completion := [0, 1], llmFails := false,
          llmResult := { audio := "", srt := "", isPartial := none },
          genId := "id.mp3" }).2 :=
  c2_partial_never_cached _ _ (by decide) rfl (by decide) (by decide)

/-- Percentages are monotone in the numerator. -/
theorem pct_mono (a b n : Nat) (h : a ≤ b) : pct a n ≤ pct b n := by
  unfold pct
  rcases Nat.eq_zero_or_pos n with hn | hn
  · subst hn
    simp
  · have hn' : (0 : ℚ) < n := by exact_mod_cast hn
    have hd : (a : ℚ) / n ≤ (b : ℚ) / n :=
      (div_le_div_iff_of_pos_right hn').mpr (by exact_mod_cast h)
    nlinarith

/-- A percentage with numerator at most the denominator is at most 100. -/
theorem pct_le_100 (a n : Nat) (h : a ≤ n) : pct a n ≤ 100 := by
  unfold pct
  rcases Nat.eq_zero_or_pos n with hn | hn
  · subst hn
    simp
  · have hn' : (0 : ℚ) < n := by exact_mod_cast hn
    have : (a : ℚ) / n ≤ 1 := by
      rw [div_le_one hn']
      exact_mod_cast h
    nlinarith

/-- The final report is the full percentage. -/
theorem pct_one_one : pct 1 1 = 100 := by
  norm_num [pct]

/-- A duplicate-free list of indices below `n` has at most `n` elements. -/
theorem nodup_lt_length_le (l : List Nat) (n : Nat) (hnodup : l.Nodup)
    (hlt : ∀ i ∈ l, i < n) : l.length ≤ n := by
  have h1 : l.toFinset ⊆ Finset.range n := by
    intro x hx
    rw [List.mem_toFinset] at hx
    exact Finset.mem_range.mpr (hlt x hx)
  have h2 := Finset.card_le_card h1
  rwa [List.toFinset_card_of_nodup hnodup, Finset.card_range] at h2

/-- Progress reports of the segment tasks: starting the shared
`handledLength` counter at `handled` with enough headroom, the reported
values, with the final report of 100 appended, form a non-decreasing chain,
and every intermediate report lies between the next report's percentage and
100. -/
theorem runSegTasks_progress_chain (p : GenParams) (segs : List String)
    (outs : List SegOutcome) :
    ∀ (completion : List Nat) (handled : Nat),
      handled + (completion.filter fun i => isOkStep segs outs i).length
          ≤ segs.length →
      List.Chain' (· ≤ ·)
        (progressValues (runSegTasks p segs outs completion handled)
          ++ [(100 : ℚ)]) ∧
      ∀ q ∈ progressValues (runSegTasks p segs outs completion handled),
        pct (handled + 1) segs.length ≤ q ∧ q ≤ 100 := by
  intro completion
  induction completion with
  | nil =>
    intro handled _
    simp [runSegTasks, progressValues]
  | cons i rest ih =>
    intro handled hbound
    rcases hseg : segs.get? i with _ | s
    · have hok : isOkStep segs outs i = false := by
        unfold isOkStep
        rw [hseg]
      have hfilter : ((i :: rest).filter fun j => isOkStep segs outs j) =
          rest.filter fun j => isOkStep segs outs j := by
        rw [List.filter_cons, hok]
        simp
      rw [hfilter] at hbound
      have hrec := ih handled hbound
      unfold runSegTasks
      rw [hseg]
      exact hrec
    · rcases hout : outs.get? i with _ | oc
      · have hok : isOkStep segs outs i = false := by
          unfold isOkStep
          rw [hseg, hout]
        have hfilter : ((i :: rest).filter fun j => isOkStep segs outs j) =
            rest.filter fun j => isOkStep segs outs j := by
          rw [List.filter_cons, hok]
          simp
        rw [hfilter] at hbound
        have hrec := ih handled hbound
        unfold runSegTasks
        rw [hseg, hout]
        exact hrec
      · cases oc with
        | hit a srt =>
          have hok : isOkStep segs outs i = false := by
            unfold isOkStep
            rw [hseg, hout]
          have hfilter : ((i :: rest).filter fun j => isOkStep segs outs j) =
              rest.filter fun j => isOkStep segs outs j := by
            rw [List.filter_cons, hok]
            simp
          rw [hfilter] at hbound
          have hrec := ih handled hbound
          unfold runSegTasks
          rw [hseg, hout]
          simpa [segTask, progressValues] using hrec
        | fail =>
          have hok : isOkStep segs outs i = false := by
            unfold isOkStep
            rw [hseg, hout]
          have hfilter : ((i :: rest).filter fun j => isOkStep segs outs j) =
              rest.filter fun j => isOkStep segs outs j := by
            rw [List.filter_cons, hok]
            simp
          rw [hfilter] at hbound
          have hrec := ih handled hbound
          unfold runSegTasks
          rw [hseg, hout]
          simpa [segTask, progressValues] using hrec
        | ok =>
          have hok : isOkStep segs outs i = true := by
            unfold isOkStep
            rw [hseg, hout]
          have hfilter : ((i :: rest).filter fun j => isOkStep segs outs j) =
              i :: (rest.filter fun j => isOkStep segs outs j) := by
            rw [List.filter_cons, hok]
            simp
          rw [hfilter, List.length_cons] at hbound
          have hhandled : handled + 1 ≤ segs.length := by omega
          have hbound' :
              (handled + 1) +
                (rest.filter fun j => isOkStep segs outs j).length
                ≤ segs.length := by omega
          obtain ⟨hchain, hbd⟩ := ih (handled + 1) hbound'
          have hgoal : runSegTasks p segs outs (i :: rest) handled =
              (segTask p s i .ok handled segs.length).2
                ++ runSegTasks p segs outs rest (handled + 1) := by
            simp only [runSegTasks]
            rw [hseg, hout]
            rfl
          rw [hgoal]
          have hvals :
              progressValues
                ((segTask p s i .ok handled segs.length).2
                  ++ runSegTasks p segs outs rest (handled + 1)) =
              pct (handled + 1) segs.length ::
                progressValues (runSegTasks p segs outs rest (handled + 1)) := by
            simp [segTask, progressValues]
          have hv100 : pct (handled + 1) segs.length ≤ 100 :=
            pct_le_100 (handled + 1) segs.length hhandled
          constructor
          · rw [hvals, List.cons_append]
            rw [List.chain'_cons']
            constructor
            · intro b hb
              rcases hrv : progressValues
                  (runSegTasks p segs outs rest (handled + 1)) with _ | ⟨q0, qs⟩
              · rw [hrv] at hb
                simp at hb
                subst hb
                exact hv100
              · rw [hrv] at hb
                simp at hb
                subst hb
                have hq0 := (hbd q0 (by rw [hrv]; exact List.mem_cons_self q0 qs)).1
                exact le_trans (pct_mono (handled + 1) (handled + 1 + 1)
                  segs.length (by omega)) hq0
            · exact hchain
          · rw [hvals]
            intro q hq
            rcases List.mem_cons.mp hq with hq | hq
            · subst hq
              exact ⟨le_refl _, hv100⟩
            · have hbq := hbd q hq
              exact ⟨le_trans (pct_mono (handled + 1) (handled + 1 + 1)
                segs.length (by omega)) hbq.1, hbq.2⟩

/-- Every `generateTTS` trace carries either no progress reports at all (the
cache-hit, validation-failure, LLM and single-segment paths), the
segment-task reports alone (when the merge of an all-failed batch throws
before the final report), or the segment-task reports followed by the
unconditional final report of 100. -/
theorem generateTTSModel_progress (p : GenParams) (o : Oracle) :
    progressValues (generateTTSModel p o).2 = [] ∨
    progressValues (generateTTSModel p o).2 =
      progressValues (runSegTasks p o.segments o.segOutcomes o.completion 0) ∨
    progressValues (generateTTSModel p o).2 =
      progressValues (runSegTasks p o.segments o.segOutcomes o.completion 0)
        ++ [100] := by
  unfold generateTTSModel
  rcases o.batchCache with _ | cached
  · by_cases hval : validateLangAndVoiceFails o.lang p.voice = true
    · left
      simp [hval, progressValues]
    · simp only [Bool.not_eq_true] at hval
      simp only [hval, Bool.false_eq_true, if_false]
      by_cases hllm : p.useLLM = true
      · left
        simp only [hllm, if_true]
        unfold generateWithLLMModel
        by_cases hlen : o.segments.length ≤ 1
        · rw [if_pos hlen]
          by_cases hf : o.llmFails = true
          · simp [hf, progressValues]
          · simp only [Bool.not_eq_true] at hf
            simp only [hf, Bool.false_eq_true, if_false]
            by_cases ha : o.llmResult.audio = ""
            · simp [validateTTSResultModel, ha, progressValues]
            · by_cases hp : o.llmResult.isPartial.getD false = true
              · simp [validateTTSResultModel, ha, hp, progressValues]
              · simp [validateTTSResultModel, ha, hp, progressValues]
        · rw [if_neg hlen]
          simp [validateTTSResultModel, progressValues]
      · simp only [Bool.not_eq_true] at hllm
        simp only [hllm, Bool.false_eq_true, if_false]
        unfold generateWithoutLLMModel
        by_cases hlen : o.segments.length ≤ 1
        · left
          rw [if_pos hlen]
          unfold buildSegmentModel
          by_cases hf : o.singleFails = true
          · simp [hf, Except.map, progressValues]
          · simp only [Bool.not_eq_true] at hf
            have hne := staticUrl_ne_empty o.genId
            simp [hf, Except.map, validateTTSResultModel, hne, progressValues]
        · rw [if_neg hlen]
          unfold buildSegmentListModel
          by_cases hall : o.segOutcomes.all SegOutcome.isFail = true
          · right; left
            simp [hall, Except.map, progressValues]
          · right; right
            simp only [Bool.not_eq_true] at hall
            have hne := staticUrl_ne_empty o.genId
            by_cases hp : o.segOutcomes.any SegOutcome.isFail = true
            · simp [hall, hp, Except.map, validateTTSResultModel, hne,
                progressValues, pct_one_one]
            · simp [hall, hp, Except.map, validateTTSResultModel, hne,
                progressValues, pct_one_one]
  · left
    simp [progressValues]

/-- C9 (amended): over any scheduler interleaving (a duplicate-free
completion order over valid segment indices), the progress values reported
through `updateProgress` are monotonically non-decreasing and never exceed
100, and the successful multi-segment path ends with the unconditional
final report of 100 issued after every job has completed. The reported
quantity, however, is the count of freshly synthesized successful segments
over the total — segments that hit the per-segment cache, and failed
segments, do not advance it (see the counterexample), so intermediate
reports need not equal the fraction of terminal jobs. -/
theorem c9_progress_monotone (p : GenParams) (o : Oracle)
    (hnodup : o.completion.Nodup)
    (hrange : ∀ i ∈ o.completion, i < o.segments.length) :
    List.Chain' (· ≤ ·) (progressValues (generateTTSModel p o).2) ∧
    (o.batchCache = none →
      validateLangAndVoiceFails o.lang p.voice = false →
      p.useLLM = false → ¬ o.segments.length ≤ 1 →
      o.segOutcomes.all SegOutcome.isFail = false →
      (progressValues (generateTTSModel p o).2).getLast? = some 100) := by
  have hlen := nodup_lt_length_le
    (o.completion.filter fun i => isOkStep o.segments o.segOutcomes i)
    o.segments.length (hnodup.filter _)
    (fun i hi => hrange i (List.mem_of_mem_filter hi))
  have hmain := runSegTasks_progress_chain p o.segments o.segOutcomes
    o.completion 0 (by omega)
  constructor
  · rcases generateTTSModel_progress p o with h | h | h
    · rw [h]
      exact List.chain'_nil
    · rw [h]
      exact (List.chain'_append.mp hmain.1).1
    · rw [h]
      exact hmain.1
  · intro h1 h2 h3 h4 h5
    have htrace : progressValues (generateTTSModel p o).2 =
        progressValues
          (runSegTasks p o.segments o.segOutcomes o.completion 0)
          ++ [100] := by
      unfold generateTTSModel
      rw [h1]
      simp only [h2, Bool.false_eq_true, if_false, h3]
      unfold generateWithoutLLMModel
      rw [if_neg h4]
      unfold buildSegmentListModel
      simp only [h5, Bool.false_eq_true, if_false]
      have hne := staticUrl_ne_empty o.genId
      by_cases hp : o.segOutcomes.any SegOutcome.isFail = true
      · simp [Except.map, validateTTSResultModel, hne, hp, progressValues,
          pct_one_one]
      · simp [Except.map, validateTTSResultModel, hne, hp, progressValues,
          pct_one_one]
    rw [htrace, List.getLast?_concat]

/-- Witness for C9 at a concrete batch (two cache hits, then one fresh
synthesis, in index order): the progress reports end with the final 100. -/
theorem c9_witness :
    (progressValues
      (generateTTSModel
        { text := "a b c", pitch := "default", voice := "zh-CN-XiaoyiNeural",
          rate := "default", volume := "default", useLLM := false }
        { batchCache := none, lang := "eng", segments := ["a", "b", "c"],
          singleFails := false,
          segOutcomes := [.hit "1_splits.mp3" "1.srt",
            .hit "2_splits.mp3" "2.srt", .ok],
          completion := [0, 1, 2], llmFails := false,
          llmResult := { audio := "", srt := "", isPartial := none },
          genId := "id.mp3" }).2).getLast? = some 100 :=
  (c9_progress_monotone _ _ (by decide) (by decide)).2 rfl (by decide) rfl
    (by decide) (by decide)

/-- C9, as stated, is false: in a 3-segment batch where two segments hit the
per-segment cache and the third synthesizes (completing in index order), the
single intermediate report is 100/3 — only fresh syntheses bump
`handledLength` — although two jobs are already terminal when it is issued,
so the claimed value (count of terminal jobs over the total of 3, i.e.
200/3) differs from the reported one. -/
theorem c9_counterexample :
    ¬ ∀ pr ∈ reportPairs
        (generateTTSModel
          { text := "a b c", pitch := "default", voice := "zh-CN-XiaoyiNeural",
            rate := "default", volume := "default", useLLM := false }
          { batchCache := none, lang := "eng", segments := ["a", "b", "c"],
            singleFails := false,
            segOutcomes := [.hit "1_splits.mp3" "1.srt",
              .hit "2_splits.mp3" "2.srt", .ok],
            completion := [0, 1, 2], llmFails := false,
            llmResult := { audio := "", srt := "", isPartial := none },
            genId := "id.mp3" }).2,
      pct pr.1.1 pr.1.2 = pct pr.2 3 := by
  intro h
  have hmem : (((1 : Nat), (3 : Nat)), (2 : Nat)) ∈ reportPairs
      (generateTTSModel
        { text := "a b c", pitch := "default", voice := "zh-CN-XiaoyiNeural",
          rate := "default", volume := "default", useLLM := false }
        { batchCache := none, lang := "eng", segments := ["a", "b", "c"],
          singleFails := false,
          segOutcomes := [.hit "1_splits.mp3" "1.srt",
            .hit "2_splits.mp3" "2.srt", .ok],
          completion := [0, 1, 2], llmFails := false,
          llmResult := { audio := "", srt := "", isPartial := none },
          genId := "id.mp3" }).2 := by decide
  have heq := h _ hmem
  norm_num [pct] at heq

/-- Digit characters are not separators. -/
theorem dig_ok (d : Nat) (h : d < 10) :
    dig d ≠ '.' ∧ dig d ≠ '_' ∧ dig d ≠ '/' := by
  interval_cases d <;> exact ⟨by decide, by decide, by decide⟩

/-- Digit characters decode back to their value. -/
theorem dig_toNat (d : Nat) (h : d < 10) : (dig d).toNat = 48 + d := by
  interval_cases d <;> decide

/-- Appending one digit multiplies the decoded value by ten. -/
theorem decVal_append (xs : List Char) (c : Char) :
    decVal (xs ++ [c]) = 10 * decVal xs + (c.toNat - 48) := by
  simp [decVal, List.foldl_append]
  omega

/-- The decimal printer and `Number()` round-trip. -/
theorem decVal_decDigitsAux (fuel : Nat) :
    ∀ n, n ≤ fuel → decVal (decDigitsAux fuel n) = n := by
  induction fuel with
  | zero =>
    intro n hn
    interval_cases n
    decide
  | succ fuel ih =>
    intro n hn
    unfold decDigitsAux
    by_cases h10 : n < 10
    · rw [if_pos h10]
      interval_cases n <;> decide
    · rw [if_neg h10]
      rw [decVal_append, ih (n / 10) (by omega),
        dig_toNat (n % 10) (Nat.mod_lt _ (by omega))]
      omega

/-- The decimal printer and `Number()` round-trip. -/
theorem decVal_decDigits (n : Nat) : decVal (decDigits n) = n :=
  decVal_decDigitsAux n n le_rfl

/-- Decimal digits contain no separator characters. -/
theorem decDigitsAux_good (fuel : Nat) :
    ∀ n, ∀ c ∈ decDigitsAux fuel n, c ≠ '.' ∧ c ≠ '_' ∧ c ≠ '/' := by
  induction fuel with
  | zero =>
    intro n c hc
    simp only [decDigitsAux, List.mem_singleton] at hc
    subst hc
    exact dig_ok _ (Nat.mod_lt _ (by omega))
  | succ fuel ih =>
    intro n c hc
    unfold decDigitsAux at hc
    by_cases h10 : n < 10
    · rw [if_pos h10] at hc
      simp only [List.mem_singleton] at hc
      subst hc
      exact dig_ok _ h10
    · rw [if_neg h10] at hc
      rcases List.mem_append.mp hc with hc | hc
      · exact ih _ c hc
      · simp only [List.mem_singleton] at hc
        subst hc
        exact dig_ok _ (Nat.mod_lt _ (by omega))

/-- Decimal digits contain no separator characters. -/
theorem decDigits_good (n : Nat) :
    ∀ c ∈ decDigits n, c ≠ '.' ∧ c ≠ '_' ∧ c ≠ '/' :=
  decDigitsAux_good n n

/-- A slash-free name is its own base name. -/
theorem afterLastSlash_no_slash (cs : List Char)
    (h : ∀ c ∈ cs, c ≠ '/') : afterLastSlash cs = cs := by
  unfold afterLastSlash
  rw [List.takeWhile_eq_self_iff.mpr, List.reverse_reverse]
  intro c hc
  rw [List.mem_reverse] at hc
  simpa using h c hc

/-- `takeWhile` over an all-good prefix stops exactly at the first
stopper. -/
theorem takeWhile_append_stop (p : Char → Bool) (cs : List Char) (d : Char)
    (rest : List Char) (hall : ∀ c ∈ cs, p c = true) (hd : p d = false) :
    (cs ++ d :: rest).takeWhile p = cs := by
  induction cs with
  | nil => simp [List.takeWhile_cons, hd]
  | cons c t ih =>
    have hc : p c = true := hall c (by simp)
    rw [List.cons_append, List.takeWhile_cons, hc]
    simp only [if_true]
    rw [ih (fun x hx => hall x (by simp [hx]))]

/-- The character lists of the two generated names. -/
theorem segFileName_toList (i : Nat) :
    (segFileName i).toList = decDigits (i + 1) ++ "_splits.mp3".toList := rfl

/-- The character lists of the two generated names. -/
theorem segJsonName_toList (i : Nat) :
    (segFileName i ++ ".json").toList =
      decDigits (i + 1) ++ "_splits.mp3.json".toList := by
  show (decDigits (i + 1) ++ "_splits.mp3".toList) ++ ".json".toList = _
  rw [List.append_assoc]
  congr 1

/-- Neither generated name contains a slash. -/
theorem afterLastSlash_segFileName (i : Nat) :
    afterLastSlash (segFileName i).toList = (segFileName i).toList := by
  apply afterLastSlash_no_slash
  rw [segFileName_toList]
  intro c hc
  rcases List.mem_append.mp hc with hc | hc
  · exact (decDigits_good (i + 1) c hc).2.2
  · have hall : ∀ x ∈ "_splits.mp3".toList, x ≠ '/' := by decide
    exact hall c hc

/-- Neither generated name contains a slash. -/
theorem afterLastSlash_segJsonName (i : Nat) :
    afterLastSlash (segFileName i ++ ".json").toList =
      (segFileName i ++ ".json").toList := by
  apply afterLastSlash_no_slash
  rw [segJsonName_toList]
  intro c hc
  rcases List.mem_append.mp hc with hc | hc
  · exact (decDigits_good (i + 1) c hc).2.2
  · have hall : ∀ x ∈ "_splits.mp3.json".toList, x ≠ '/' := by decide
    exact hall c hc

/-- The audio names carry the `.mp3` extension. -/
theorem extname_segFileName (i : Nat) : extname (segFileName i) = ".mp3" := by
  unfold extname
  rw [afterLastSlash_segFileName, segFileName_toList]
  have hdot : '.' ∈ decDigits (i + 1) ++ "_splits.mp3".toList :=
    List.mem_append.mpr (Or.inr (by decide))
  unfold extOf
  rw [if_pos hdot, List.reverse_append]
  have hrev : ("_splits.mp3".toList).reverse =
      '3' :: 'p' :: 'm' :: '.' :: "stilps_".toList := by decide
  rw [hrev]
  have htw : List.takeWhile (fun c => c != '.')
      (('3' :: 'p' :: 'm' :: '.' :: "stilps_".toList)
        ++ (decDigits (i + 1)).reverse) = ['3', 'p', 'm'] := by
    simp [List.takeWhile_cons]
  rw [List.cons_append, List.cons_append, List.cons_append, List.cons_append]
    at htw ⊢
  rw [htw]
  decide

/-- The subtitle names carry the `.json` extension. -/
theorem extname_segJsonName (i : Nat) :
    extname (segFileName i ++ ".json") = ".json" := by
  unfold extname
  rw [afterLastSlash_segJsonName, segJsonName_toList]
  have hdot : '.' ∈ decDigits (i + 1) ++ "_splits.mp3.json".toList :=
    List.mem_append.mpr (Or.inr (by decide))
  unfold extOf
  rw [if_pos hdot, List.reverse_append]
  have hrev : ("_splits.mp3.json".toList).reverse =
      'n' :: 'o' :: 's' :: 'j' :: '.' :: "3pm.stilps_".toList := by decide
  rw [hrev]
  have htw : List.takeWhile (fun c => c != '.')
      (('n' :: 'o' :: 's' :: 'j' :: '.' :: "3pm.stilps_".toList)
        ++ (decDigits (i + 1)).reverse) = ['n', 'o', 's', 'j'] := by
    simp [List.takeWhile_cons]
  rw [List.cons_append, List.cons_append, List.cons_append, List.cons_append,
    List.cons_append] at htw ⊢
  rw [htw]
  decide

/-- The numeric prefix of an audio name is its one-based segment index. -/
theorem numPrefix_segFileName (i : Nat) :
    numPrefix (segFileName i) = i + 1 := by
  unfold numPrefix
  rw [afterLastSlash_segFileName, segFileName_toList]
  have hdot : '.' ∈ decDigits (i + 1) ++ "_splits.mp3".toList :=
    List.mem_append.mpr (Or.inr (by decide))
  unfold nameOf
  rw [if_pos hdot, List.reverse_append]
  have hrev : ("_splits.mp3".toList).reverse =
      '3' :: 'p' :: 'm' :: '.' :: "stilps_".toList := by decide
  rw [hrev]
  have hdw : List.dropWhile (fun c => c != '.')
      (('3' :: 'p' :: 'm' :: '.' :: "stilps_".toList)
        ++ (decDigits (i + 1)).reverse) =
      '.' :: ("stilps_".toList ++ (decDigits (i + 1)).reverse) := by
    simp [List.dropWhile_cons]
  rw [List.cons_append, List.cons_append, List.cons_append, List.cons_append]
    at hdw ⊢
  rw [hdw, List.drop_one, List.tail_cons, List.reverse_append,
    List.reverse_reverse]
  have hrev2 : ("stilps_".toList).reverse = '_' :: "splits".toList := by
    decide
  rw [hrev2]
  rw [takeWhile_append_stop _ _ _ _
    (fun c hc => by simpa using (decDigits_good (i + 1) c hc).2.1)
    (by decide)]
  exact decVal_decDigits (i + 1)

/-- The numeric prefix of a subtitle name is its one-based segment index. -/
theorem numPrefix_segJsonName (i : Nat) :
    numPrefix (segFileName i ++ ".json") = i + 1 := by
  unfold numPrefix
  rw [afterLastSlash_segJsonName, segJsonName_toList]
  have hdot : '.' ∈ decDigits (i + 1) ++ "_splits.mp3.json".toList :=
    List.mem_append.mpr (Or.inr (by decide))
  unfold nameOf
  rw [if_pos hdot, List.reverse_append]
  have hrev : ("_splits.mp3.json".toList).reverse =
      'n' :: 'o' :: 's' :: 'j' :: '.' :: "3pm.stilps_".toList := by decide
  rw [hrev]
  have hdw : List.dropWhile (fun c => c != '.')
      (('n' :: 'o' :: 's' :: 'j' :: '.' :: "3pm.stilps_".toList)
        ++ (decDigits (i + 1)).reverse) =
      '.' :: ("3pm.stilps_".toList ++ (decDigits (i + 1)).reverse) := by
    simp [List.dropWhile_cons]
  rw [List.cons_append, List.cons_append, List.cons_append, List.cons_append,
    List.cons_append] at hdw ⊢
  rw [hdw, List.drop_one, List.tail_cons, List.reverse_append,
    List.reverse_reverse]
  have hrev2 : ("3pm.stilps_".toList).reverse = '_' :: "splits.mp3".toList := by
    decide
  rw [hrev2]
  rw [takeWhile_append_stop _ _ _ _
    (fun c hc => by simpa using (decDigits_good (i + 1) c hc).2.1)
    (by decide)]
  exact decVal_decDigits (i + 1)

/-- Ordered insertion by numeric prefix commutes with naming. -/
theorem orderedInsert_map_key (f : Nat → String)
    (hf : ∀ i, numPrefix (f i) = i + 1) (i : Nat) :
    ∀ l : List Nat,
      List.orderedInsert (fun a b => numPrefix a ≤ numPrefix b) (f i)
          (l.map f) =
        (List.orderedInsert (· ≤ ·) i l).map f := by
  intro l
  induction l with
  | nil => rfl
  | cons j t ih =>
    by_cases h : i ≤ j
    · have hR : numPrefix (f i) ≤ numPrefix (f j) := by
        rw [hf i, hf j]
        omega
      rw [List.map_cons, List.orderedInsert, if_pos hR, List.orderedInsert,
        if_pos h]
      simp
    · have hR : ¬ numPrefix (f i) ≤ numPrefix (f j) := by
        rw [hf i, hf j]
        omega
      rw [List.map_cons, List.orderedInsert, if_neg hR, List.orderedInsert,
        if_neg h, List.map_cons, ih]

/-- Insertion sort by numeric prefix commutes with naming. -/
theorem insertionSort_map_key (f : Nat → String)
    (hf : ∀ i, numPrefix (f i) = i + 1) :
    ∀ l : List Nat,
      List.insertionSort (fun a b => numPrefix a ≤ numPrefix b) (l.map f) =
        (List.insertionSort (· ≤ ·) l).map f := by
  intro l
  induction l with
  | nil => rfl
  | cons j t ih =>
    rw [List.map_cons, List.insertionSort, List.insertionSort, ih,
      orderedInsert_map_key f hf j]

/-- Without per-segment cache hits, the accumulated `fileList` is exactly
the fresh `N_splits` names of the successful segments, in completion
order. -/
theorem fileListOf_no_hit (segs : List String) (outs : List SegOutcome)
    (hnohit : ∀ oc ∈ outs, oc.isHit = false) :
    ∀ completion, fileListOf segs outs completion =
      (completion.filter fun i => isOkStep segs outs i).map segFileName := by
  intro completion
  induction completion with
  | nil => rfl
  | cons i rest ih =>
    rcases hseg : segs.get? i with _ | s
    · have hstep : isOkStep segs outs i = false := by
        unfold isOkStep
        rw [hseg]
      simp only [fileListOf, List.filterMap_cons, List.filter_cons, hseg,
        hstep] at ih ⊢
      simpa using ih
    · rcases hout : outs.get? i with _ | oc
      · have hstep : isOkStep segs outs i = false := by
          unfold isOkStep
          rw [hseg, hout]
        simp only [fileListOf, List.filterMap_cons, List.filter_cons, hseg,
          hout, hstep] at ih ⊢
        simpa using ih
      · cases oc with
        | hit a s' =>
          have : SegOutcome.isHit (.hit a s') = false :=
            hnohit _ (List.get?_mem hout)
          simp [SegOutcome.isHit] at this
        | ok =>
          have hstep : isOkStep segs outs i = true := by
            unfold isOkStep
            rw [hseg, hout]
          simp only [fileListOf, List.filterMap_cons, List.filter_cons, hseg,
            hout, hstep] at ih ⊢
          simpa using ih
        | fail =>
          have hstep : isOkStep segs outs i = false := by
            unfold isOkStep
            rw [hseg, hout]
          simp only [fileListOf, List.filterMap_cons, List.filter_cons, hseg,
            hout, hstep] at ih ⊢
          simpa using ih

/-- C4: with every surviving segment contributing its own fresh `N_splits`
file (no per-segment cache hits, whose cached names come from code outside
the snapshot), the merge consumes audio files and subtitle files strictly in
ascending segment-index order — `sortAudioDir` sorts the pushed names by the
numeric prefix of `N_splits`, not by completion order; failed segments are
excluded (they push no file), and the survivors appear as the ascending sort
(a permutation preserving relative index order) of the successful indices in
both the audio and the subtitle merge inputs. -/
theorem c4_merge_in_index_order (segs : List String) (outs : List SegOutcome)
    (completion : List Nat)
    (hnohit : ∀ oc ∈ outs, oc.isHit = false) :
    sortAudioDir (fileListOf segs outs completion) ".mp3" =
      (List.insertionSort (· ≤ ·)
        (completion.filter fun i => isOkStep segs outs i)).map segFileName ∧
    sortAudioDir
        ((fileListOf segs outs completion).map (fun f => f ++ ".json"))
        ".json" =
      (List.insertionSort (· ≤ ·)
        (completion.filter fun i => isOkStep segs outs i)).map
        (fun i => segFileName i ++ ".json") ∧
    List.Sorted (· ≤ ·)
      (List.insertionSort (· ≤ ·)
        (completion.filter fun i => isOkStep segs outs i)) ∧
    (List.insertionSort (· ≤ ·)
        (completion.filter fun i => isOkStep segs outs i)).Perm
      (completion.filter fun i => isOkStep segs outs i) := by
  have hfl := fileListOf_no_hit segs outs hnohit completion
  refine ⟨?_, ?_, List.sorted_insertionSort _ _, List.perm_insertionSort _ _⟩
  · rw [hfl]
    unfold sortAudioDir
    rw [List.filter_eq_self.mpr, insertionSort_map_key segFileName
      numPrefix_segFileName]
    intro a ha
    obtain ⟨i, _, rfl⟩ := List.mem_map.mp ha
    rw [extname_segFileName]
    exact beq_self_eq_true _
  · rw [hfl, List.map_map]
    unfold sortAudioDir
    have hcomp : ((fun f => f ++ ".json") ∘ segFileName) =
        fun i => segFileName i ++ ".json" := rfl
    rw [List.filter_eq_self.mpr, hcomp, insertionSort_map_key
      (fun i => segFileName i ++ ".json") numPrefix_segJsonName]
    intro a ha
    obtain ⟨i, _, rfl⟩ := List.mem_map.mp ha
    show (extname (segFileName i ++ ".json") == ".json") = true
    rw [extname_segJsonName]
    exact beq_self_eq_true _

/-- Witness for C4 at a concrete batch: three segments, the middle one
failed, completion order 2-0-1 — the merge inputs are the two survivors in
ascending index order. -/
theorem c4_witness :
    sortAudioDir (fileListOf ["a", "b", "c"] [.ok, .fail, .ok] [2, 0, 1])
        ".mp3" = ["1_splits.mp3", "3_splits.mp3"] :=
  (c4_merge_in_index_order ["a", "b", "c"] [.ok, .fail, .ok] [2, 0, 1]
    (by decide)).1

end EasyVoice
